import Mathlib

set_option maxRecDepth 8000

/-!
Shallow embedding of `src/cryptography/hazmat/backends/openssl/rsa.py`:
RSA encryption/decryption and signing/verification with PKCS#1 v1.5, OAEP
and PSS paddings.  Data that in the Python source lives in collaborator
modules (padding descriptors, hash algorithm objects, the OpenSSL error
queue) is embedded as inductive types; the padding codecs and the RSA
primitive, which the source delegates to OpenSSL, are modelled from the
specification where a claim depends on them.  Byte strings are `List Nat`
with every element below 256.
-/

/-- Hash algorithm identifiers with their fixed digest sizes, as provided by
the hashing collaborator (`cryptography.hazmat.primitives.hashes`). -/
inductive HashAlg
  | sha1
  | sha224
  | sha256
  | sha384
  | sha512
  deriving DecidableEq, Repr

/-- Digest size in bytes (the `digest_size` attribute of the algorithm). -/
def HashAlg.digestSize : HashAlg → Nat
  | .sha1 => 20
  | .sha224 => 28
  | .sha256 => 32
  | .sha384 => 48
  | .sha512 => 64

/-- Mask generation functions: MGF1 with an inner hash, or any other object
(the source tests `isinstance(padding._mgf, MGF1)`). -/
inductive MGF
  | mgf1 (algorithm : HashAlg)
  | otherMGF
  deriving DecidableEq, Repr

/-- The PSS salt length policy: either the `MAX_LENGTH` sentinel
(`pss._salt_length is MGF1.MAX_LENGTH or PSS.MAX_LENGTH`) or a fixed count. -/
inductive SaltPolicy
  | maxLength
  | fixedLength (count : Nat)
  deriving DecidableEq, Repr

/-- Padding descriptors, a closed variant of the `AsymmetricPadding`
instances the source distinguishes with `isinstance` checks.
`otherPadding` stands for any further `AsymmetricPadding` subclass. -/
inductive Padding
  | pkcs1v15
  | oaep (mgf : MGF) (algorithm : HashAlg) (label : Option (List Nat))
  | pss (mgf : MGF) (saltLength : SaltPolicy)
  | otherPadding
  deriving DecidableEq, Repr

/-- The error outcomes the module can surface, named after the
specification's error taxonomy.  `assertionFailure` stands for a failing
Python `assert`. -/
inductive RsaError
  | unsupportedPadding
  | unsupportedMGF
  | unsupportedHash
  | unsupportedFeature
  | keyTooSmall
  | messageTooLong
  | dataTooLarge
  | saltTooLong
  | decryptionFailed
  | invalidSignature
  | alreadyFinalized
  | ciphertextLengthInvalid
  | assertionFailure
  deriving DecidableEq, Repr

/-- Reason codes from the OpenSSL error queue consumed by
`_handle_rsa_enc_dec_error`.  `nonRsaLibError` stands for an entry whose
`lib` field is not `ERR_LIB_RSA`; `otherReason` for any reason code other
than the ones the source names. -/
inductive OpenSSLReason
  | blockTypeIsNot01
  | blockTypeIsNot02
  | pkcsDecodingError
  | dataTooLargeForKeySize
  | digestTooBigForRsaKey
  | nonRsaLibError
  | otherReason
  deriving DecidableEq, Repr

/-- Fuel-driven bit length so that the kernel can evaluate it on literals. -/
def bitLenAux : Nat → Nat → Nat
  | 0, _ => 0
  | fuel + 1, n => if n = 0 then 0 else bitLenAux fuel (n / 2) + 1

/-- Bit length of a natural number, the `BN_num_bits` of the source
(`bitLength 0 = 0`, otherwise the index of the highest set bit plus one). -/
def bitLength (n : Nat) : Nat := bitLenAux n n

/-- An RSA key pair reduced to the numbers the embedded operations use:
the modulus and both exponents.  A verification context only touches `n`
and `e`; contexts built from the private key also use `d`. -/
structure RSAKey where
  n : Nat
  e : Nat
  d : Nat
  deriving DecidableEq, Repr

/-- Key size in bytes: `int(math.ceil(key_size / 8.0))`, which is also what
`EVP_PKEY_size` returns for an RSA key. -/
def RSAKey.bytes (key : RSAKey) : Nat := (bitLength key.n + 7) / 8

/-- The `emlen` of `_get_rsa_pss_salt_length`: `int(math.ceil((key_size - 1) / 8.0))`. -/
def pssEmLen (keySize : Nat) : Nat := (keySize - 1 + 7) / 8

/-- Source `_get_rsa_pss_salt_length(pss, key_size, digest_size)`: resolves the
salt-length policy.  The Python `assert salt_length >= 0` is modelled as
`assertionFailure`; the subtraction is carried out in `Int` exactly as
Python does it on unbounded ints. -/
def getRsaPssSaltLength (saltPolicy : SaltPolicy) (keySize digestSize : Nat) :
    Except RsaError Nat :=
  match saltPolicy with
  | .maxLength =>
    let saltLength : Int := (pssEmLen keySize : Int) - digestSize - 2
    if saltLength < 0 then .error .assertionFailure
    else .ok saltLength.toNat
  | .fixedLength count => .ok count

/-- The padding validation of `_enc_dec_rsa` (lines 43-74): PKCS#1 v1.5
passes, OAEP is checked for MGF1, SHA-1 inside MGF1, an absent or empty
label, and SHA-1 as the OAEP digest, in that order; anything else is
`UnsupportedPadding`. -/
def encDecValidate (padding : Padding) : Except RsaError Unit :=
  match padding with
  | .pkcs1v15 => .ok ()
  | .oaep mgf algorithm label =>
    match mgf with
    | .mgf1 mgfAlg =>
      if mgfAlg ≠ .sha1 then .error .unsupportedHash
      else if label.getD [] ≠ [] then .error .unsupportedFeature
      else if algorithm ≠ .sha1 then .error .unsupportedHash
      else .ok ()
    | .otherMGF => .error .unsupportedMGF
  | _ => .error .unsupportedPadding

/-- The `decoding_errors` list of `_handle_rsa_enc_dec_error`, extended
with `RSA_R_PKCS_DECODING_ERROR` when the linked OpenSSL defines it. -/
def decodingErrorsList (hasPkcsDecodingError : Bool) : List OpenSSLReason :=
  [.blockTypeIsNot01, .blockTypeIsNot02] ++
    (if hasPkcsDecodingError then [.pkcsDecodingError] else [])

/-- Source `_handle_rsa_enc_dec_error(backend, key)` applied to the consumed error
queue: asserts the queue is non-empty and its head comes from
`ERR_LIB_RSA`; a public key maps `DATA_TOO_LARGE_FOR_KEY_SIZE` to the
data-too-large `ValueError`, a private key maps every recognised decoding
reason to the single `Decryption failed.` `ValueError`. -/
def handleRsaEncDecError (isPublicKey hasPkcsDecodingError : Bool)
    (errors : List OpenSSLReason) : RsaError :=
  match errors with
  | [] => .assertionFailure
  | reason :: _ =>
    if reason = .nonRsaLibError then .assertionFailure
    else if isPublicKey then
      if reason = .dataTooLargeForKeySize then .dataTooLarge
      else .assertionFailure
    else
      if reason ∈ decodingErrorsList hasPkcsDecodingError then .decryptionFailed
      else .assertionFailure

/-- Outcome of `_enc_dec_rsa_pkey_ctx` (lines 104-108) as a function of the
OpenSSL crypt call's outcome: success returns the buffer, failure hands the
consumed error queue to `_handle_rsa_enc_dec_error`. -/
def encDecRsaPkeyCtxOutcome (isPublicKey hasPkcsDecodingError : Bool)
    (cryptResult : Except (List OpenSSLReason) (List Nat)) :
    Except RsaError (List Nat) :=
  match cryptResult with
  | .ok buf => .ok buf
  | .error errors =>
    .error (handleRsaEncDecError isPublicKey hasPkcsDecodingError errors)

/-- Tail of `_RSAVerificationContext._verify_pkey_ctx` (lines 442-456):
`EVP_PKEY_verify` returned `res` and on `res == 0` the error queue
`errors` was consumed.  A negative `res` fails the `assert res >= 0`;
`res == 0` raises the undifferentiated `InvalidSignature` (after asserting
the queue is non-empty), whatever the queue holds. -/
def verifyPkeyCtxOutcome (res : Int) (errors : List OpenSSLReason) :
    Except RsaError Unit :=
  if res < 0 then .error .assertionFailure
  else if res = 0 then
    if errors = [] then .error .assertionFailure else .error .invalidSignature
  else .ok ()

/-- Modelled from the spec: the incremental hash context of the hashing
collaborator (`cryptography.hazmat.primitives.hashes.Hash`, not under
`src/`).  It accumulates input and becomes unusable once finalized; both
`update` and `finalize` on a finalized context fail with
`AlreadyFinalized`, matching the linear single-use contract of §4.7. -/
structure HashCtx where
  data : List Nat
  finalized : Bool
  deriving DecidableEq, Repr

/-- A fresh hash context, `hashes.Hash(algorithm, backend)`. -/
def HashCtx.init : HashCtx := ⟨[], false⟩

/-- Modelled from the spec: `Hash.update`, rejecting a finalized context. -/
def HashCtx.updateCtx (h : HashCtx) (d : List Nat) : Except RsaError HashCtx :=
  if h.finalized then .error .alreadyFinalized
  else .ok { h with data := h.data ++ d }

/-- Modelled from the spec: `Hash.finalize`, returning the digest computed
by the abstract hash function and marking the context finalized. -/
def HashCtx.finalizeCtx (hashFn : List Nat → List Nat) (h : HashCtx) :
    Except RsaError (List Nat × HashCtx) :=
  if h.finalized then .error .alreadyFinalized
  else .ok (hashFn h.data, { h with finalized := true })

/-- The `_RSASignatureContext` state: the private key, the validated padding, the
digest algorithm, which finalize strategy was selected
(`Cryptography_HAS_PKEY_CTX`), and the running hash context. -/
structure SigContext where
  key : RSAKey
  padding : Padding
  algorithm : HashAlg
  usePkeyCtx : Bool
  hashCtx : HashCtx
  deriving DecidableEq, Repr

/-- The `_RSAVerificationContext` state: like `SigContext` but holding the public
half of the key and the candidate signature supplied at creation. -/
structure VerContext where
  key : RSAKey
  signature : List Nat
  padding : Padding
  algorithm : HashAlg
  usePkeyCtx : Bool
  hashCtx : HashCtx
  deriving DecidableEq, Repr

/-- Source `_RSASignatureContext.__init__` (lines 152-203).  `mgf1Supported` is
the backend's `_mgf1_hash_supported` predicate.  PKCS#1 v1.5 is accepted
outright; PSS checks, in source order: MGF1, the eager
`pkey_size - digest_size - 2 < 0` key-size test, and MGF1-hash support;
any other padding is `UnsupportedPadding`. -/
def sigContextInit (mgf1Supported : HashAlg → Bool) (hasPkeyCtx : Bool)
    (key : RSAKey) (padding : Padding) (algorithm : HashAlg) :
    Except RsaError SigContext :=
  match padding with
  | .pkcs1v15 => .ok ⟨key, padding, algorithm, hasPkeyCtx, HashCtx.init⟩
  | .pss mgf _ =>
    match mgf with
    | .mgf1 mgfAlg =>
      if key.bytes < algorithm.digestSize + 2 then .error .keyTooSmall
      else if mgf1Supported mgfAlg then
        .ok ⟨key, padding, algorithm, hasPkeyCtx, HashCtx.init⟩
      else .error .unsupportedHash
    | .otherMGF => .error .unsupportedMGF
  | _ => .error .unsupportedPadding

/-- Source `_RSAVerificationContext.__init__` (lines 339-393), mirroring
`sigContextInit` with the candidate signature stored in the context. -/
def verContextInit (mgf1Supported : HashAlg → Bool) (hasPkeyCtx : Bool)
    (key : RSAKey) (signature : List Nat) (padding : Padding)
    (algorithm : HashAlg) : Except RsaError VerContext :=
  match padding with
  | .pkcs1v15 => .ok ⟨key, signature, padding, algorithm, hasPkeyCtx, HashCtx.init⟩
  | .pss mgf _ =>
    match mgf with
    | .mgf1 mgfAlg =>
      if key.bytes < algorithm.digestSize + 2 then .error .keyTooSmall
      else if mgf1Supported mgfAlg then
        .ok ⟨key, signature, padding, algorithm, hasPkeyCtx, HashCtx.init⟩
      else .error .unsupportedHash
    | .otherMGF => .error .unsupportedMGF
  | _ => .error .unsupportedPadding

/-- Source `_RSASignatureContext.update`, delegating to the hash context. -/
def SigContext.updateCtx (ctx : SigContext) (d : List Nat) :
    Except RsaError SigContext :=
  match ctx.hashCtx.updateCtx d with
  | .error err => .error err
  | .ok h' => .ok { ctx with hashCtx := h' }

/-- Source `_RSAVerificationContext.update`, delegating to the hash context. -/
def VerContext.updateCtx (ctx : VerContext) (d : List Nat) :
    Except RsaError VerContext :=
  match ctx.hashCtx.updateCtx d with
  | .error err => .error err
  | .ok h' => .ok { ctx with hashCtx := h' }

/-- Modelled from the spec (§6, big-integer collaborator): fuel-driven
square-and-multiply kernel for modular exponentiation; the fuel only
bounds the recursion depth, which is logarithmic in the exponent. -/
def modPowAux (m : Nat) : Nat → Nat → Nat → Nat
  | _, _, 0 => 1 % m
  | 0, _, _ + 1 => 0
  | fuel + 1, b, e + 1 =>
    let r := modPowAux m fuel (b * b % m) ((e + 1) / 2)
    if (e + 1) % 2 = 1 then b * r % m else r % m

/-- Modelled from the spec (§6): `mod_pow(base, exponent, modulus)` of the
big-integer collaborator, `modPow m b e = b ^ e % m`. -/
def modPow (m b e : Nat) : Nat := modPowAux m e b e

/-- Little-endian byte list to natural number. -/
def os2ipLE : List Nat → Nat
  | [] => 0
  | b :: r => b + 256 * os2ipLE r

/-- Little-endian fixed-width natural number to byte list. -/
def i2ospLE : Nat → Nat → List Nat
  | 0, _ => []
  | k + 1, x => x % 256 :: i2ospLE k (x / 256)

/-- Modelled from the spec (§6): big-endian byte-array to integer
conversion of the big-integer collaborator. -/
def os2ip (block : List Nat) : Nat := os2ipLE block.reverse

/-- Modelled from the spec (§6): big-endian integer to byte-array
conversion with fixed-width left padding. -/
def i2osp (k x : Nat) : List Nat := (i2ospLE k x).reverse

/-- Modelled from the spec (§4.6): `encrypt_block`, the public-key modular
exponentiation, output left-padded to the key size; fails with
`DataTooLarge` when the block value is not below the modulus. -/
def rsaPublicOp (key : RSAKey) (block : List Nat) : Except RsaError (List Nat) :=
  if os2ip block < key.n then
    .ok (i2osp key.bytes (modPow key.n (os2ip block) key.e))
  else .error .dataTooLarge

/-- Modelled from the spec (§4.6): `decrypt_block`, the private-key modular
exponentiation, output left-padded to the key size. -/
def rsaPrivateOp (key : RSAKey) (block : List Nat) : Except RsaError (List Nat) :=
  if os2ip block < key.n then
    .ok (i2osp key.bytes (modPow key.n (os2ip block) key.d))
  else .error .dataTooLarge

/-- Big-endian 32-bit counter encoding used by MGF1. -/
def be32 (c : Nat) : List Nat :=
  [c / 2 ^ 24 % 256, c / 2 ^ 16 % 256, c / 2 ^ 8 % 256, c % 256]

/-- Pointwise xor of two byte lists (truncating to the shorter). -/
def xorBytes (a b : List Nat) : List Nat := List.zipWith (fun x y => x ^^^ y) a b

/-- Modelled from the spec (§4.2): MGF1 concatenates `hash(seed || be32 c)`
for `c = 0, 1, …` until `maskLen` bytes are available, then truncates;
`hLen` is the digest size of `hash`, fixing the block count. -/
def mgf1 (hash : List Nat → List Nat) (hLen : Nat) (seed : List Nat)
    (maskLen : Nat) : List Nat :=
  (List.flatten ((List.range ((maskLen + hLen - 1) / hLen)).map
    (fun c => hash (seed ++ be32 c)))).take maskLen

/-- Modelled from the spec (§4.3): the PKCS#1 v1.5 encryption block
`00 02 PS 00 M` with the non-zero random padding string supplied by the
RNG collaborator. -/
def pkcs1v15EncPad (ps m : List Nat) : List Nat :=
  0 :: 2 :: ps ++ 0 :: m

/-- Scan past the non-zero padding string to the `00` separator. -/
def dropTillZero : List Nat → Except RsaError (List Nat)
  | [] => .error .decryptionFailed
  | 0 :: r => .ok r
  | (_ + 1) :: r => dropTillZero r

/-- Modelled from the spec (§4.3): re-derive `M` from a decrypted block by
scanning past `00 02`, the padding string and the `00` separator; every
structural mismatch is the single undifferentiated `DecryptionFailed`. -/
def pkcs1v15EncUnpad (block : List Nat) : Except RsaError (List Nat) :=
  match block with
  | 0 :: 2 :: rest => dropTillZero rest
  | _ => .error .decryptionFailed

/-- Modelled from the spec (§4.3): PKCS#1 v1.5 encryption; fails with
`MessageTooLong` when the message exceeds `key_size_bytes - 11`. -/
def pkcs1Encrypt (key : RSAKey) (ps m : List Nat) : Except RsaError (List Nat) :=
  if key.bytes < m.length + 11 then .error .messageTooLong
  else rsaPublicOp key (pkcs1v15EncPad ps m)

/-- Modelled from the spec (§4.3): PKCS#1 v1.5 decryption. -/
def pkcs1Decrypt (key : RSAKey) (ct : List Nat) : Except RsaError (List Nat) :=
  match rsaPrivateOp key ct with
  | .error err => .error err
  | .ok block => pkcs1v15EncUnpad block

/-- Scan past the zero padding of an OAEP data block to the `01` separator. -/
def oaepScan : List Nat → Except RsaError (List Nat)
  | [] => .error .decryptionFailed
  | 0 :: r => oaepScan r
  | 1 :: r => .ok r
  | _ => .error .decryptionFailed

/-- The OAEP data block `lHash || PS || 01 || M` of §4.4 step 2. -/
def oaepDB (hash : List Nat → List Nat) (hLen k : Nat) (label m : List Nat) :
    List Nat :=
  hash label ++ List.replicate (k - m.length - 2 * hLen - 2) 0 ++ 1 :: m

/-- The OAEP encoded block `00 || maskedSeed || maskedDB` of §4.4 steps 5-6. -/
def oaepBlock (hash mgfHash : List Nat → List Nat) (hLen mgfHLen k : Nat)
    (label seed m : List Nat) : List Nat :=
  let db := oaepDB hash hLen k label m
  let maskedDB := xorBytes db (mgf1 mgfHash mgfHLen seed db.length)
  0 :: xorBytes seed (mgf1 mgfHash mgfHLen maskedDB hLen) ++ maskedDB

/-- Modelled from the spec (§4.4): OAEP encoding with the seed supplied by
the RNG collaborator; `hLen`/`mgfHLen` are the digest sizes of `hash` and
`mgfHash`. -/
def oaepEncode (hash mgfHash : List Nat → List Nat) (hLen mgfHLen k : Nat)
    (label seed m : List Nat) : Except RsaError (List Nat) :=
  if k < m.length + 2 * hLen + 2 then .error .messageTooLong
  else .ok (oaepBlock hash mgfHash hLen mgfHLen k label seed m)

/-- Modelled from the spec (§4.4): OAEP decoding; every validation failure
(leading byte, label hash, separator) is the single undifferentiated
`DecryptionFailed`. -/
def oaepDecode (hash mgfHash : List Nat → List Nat) (hLen mgfHLen : Nat)
    (label block : List Nat) : Except RsaError (List Nat) :=
  match block with
  | 0 :: rest =>
    let maskedSeed := rest.take hLen
    let maskedDB := rest.drop hLen
    let seed := xorBytes maskedSeed (mgf1 mgfHash mgfHLen maskedDB hLen)
    let db := xorBytes maskedDB (mgf1 mgfHash mgfHLen seed maskedDB.length)
    if db.take hLen = hash label then oaepScan (db.drop hLen)
    else .error .decryptionFailed
  | _ => .error .decryptionFailed

/-- Modelled from the spec (§4.4, §4.6): OAEP encryption. -/
def oaepEncrypt (hash mgfHash : List Nat → List Nat) (hLen mgfHLen : Nat)
    (key : RSAKey) (label seed m : List Nat) : Except RsaError (List Nat) :=
  match oaepEncode hash mgfHash hLen mgfHLen key.bytes label seed m with
  | .error err => .error err
  | .ok block => rsaPublicOp key block

/-- Modelled from the spec (§4.4, §4.6): OAEP decryption. -/
def oaepDecrypt (hash mgfHash : List Nat → List Nat) (hLen mgfHLen : Nat)
    (key : RSAKey) (label ct : List Nat) : Except RsaError (List Nat) :=
  match rsaPrivateOp key ct with
  | .error err => .error err
  | .ok block => oaepDecode hash mgfHash hLen mgfHLen label block

/-- The OAEP label as bytes: `None` behaves like the empty label. -/
def labelBytes : Option (List Nat) → List Nat
  | none => []
  | some l => l

/-- Source `_RSAPublicKey.encrypt` via `_enc_dec_rsa` (lines 599-600, 39-79): the
padding is validated, then the OpenSSL encryption (modelled from the spec)
runs; `rand` is the entropy the RNG collaborator supplies (the PKCS#1
padding string, respectively the OAEP seed).  `hashFn`/`hLenOf` give the
hash collaborator's function and digest size per algorithm. -/
def rsaEncrypt (hashFn : HashAlg → List Nat → List Nat) (hLenOf : HashAlg → Nat)
    (key : RSAKey) (rand m : List Nat) (padding : Padding) :
    Except RsaError (List Nat) :=
  match encDecValidate padding with
  | .error err => .error err
  | .ok () =>
    match padding with
    | .pkcs1v15 => pkcs1Encrypt key rand m
    | .oaep (.mgf1 mgfAlg) algorithm label =>
      oaepEncrypt (hashFn algorithm) (hashFn mgfAlg)
        (hLenOf algorithm) (hLenOf mgfAlg) key (labelBytes label) rand m
    | _ => .error .unsupportedPadding

/-- Source `_enc_dec_rsa` on the private-key side: padding validation followed by
the OpenSSL decryption, modelled from the spec per scheme. -/
def encDecRsaDecrypt (hashFn : HashAlg → List Nat → List Nat)
    (hLenOf : HashAlg → Nat) (key : RSAKey) (ct : List Nat)
    (padding : Padding) : Except RsaError (List Nat) :=
  match encDecValidate padding with
  | .error err => .error err
  | .ok () =>
    match padding with
    | .pkcs1v15 => pkcs1Decrypt key ct
    | .oaep (.mgf1 mgfAlg) algorithm label =>
      oaepDecrypt (hashFn algorithm) (hashFn mgfAlg)
        (hLenOf algorithm) (hLenOf mgfAlg) key (labelBytes label) ct
    | _ => .error .unsupportedPadding

/-- Source `_RSAPrivateKey.decrypt` (lines 533-538): the ciphertext length must
equal `int(math.ceil(key_size / 8.0))` before anything else — including
padding validation — happens. -/
def rsaDecrypt (hashFn : HashAlg → List Nat → List Nat)
    (hLenOf : HashAlg → Nat) (key : RSAKey) (ct : List Nat)
    (padding : Padding) : Except RsaError (List Nat) :=
  if key.bytes ≠ ct.length then .error .ciphertextLengthInvalid
  else encDecRsaDecrypt hashFn hLenOf key ct padding

/-- The key-pair consistency invariant of the data model (§3): the CRT
parameters are consistent with `p, q, d`, hence the private exponent
undoes the public one on every residue below the modulus. -/
def rsaInverts (key : RSAKey) : Prop :=
  ∀ x < key.n, x ^ (key.e * key.d) % key.n = x

/-- The padding variants `_enc_dec_rsa` accepts (PKCS#1 v1.5 and OAEP). -/
def Padding.encDecSupported : Padding → Bool
  | .pkcs1v15 => true
  | .oaep _ _ _ => true
  | _ => false

/-- The padding variants the signature and verification contexts accept
(PKCS#1 v1.5 and PSS). -/
def Padding.sigSupported : Padding → Bool
  | .pkcs1v15 => true
  | .pss _ _ => true
  | _ => false

/-- Contract on the entropy the RNG collaborator supplies to `rsaEncrypt`:
for PKCS#1 v1.5 a padding string of non-zero bytes filling the block, for
OAEP a seed of the digest size. -/
def randOK (hLenOf : HashAlg → Nat) (key : RSAKey) (padding : Padding)
    (m rand : List Nat) : Prop :=
  match padding with
  | .pkcs1v15 => rand.length + m.length + 3 = key.bytes ∧ ∀ b ∈ rand, 0 < b ∧ b < 256
  | .oaep _ algorithm _ => rand.length = hLenOf algorithm ∧ ∀ b ∈ rand, b < 256
  | _ => True

/-- The maximum message length of each encryption scheme (§4.3, §4.4). -/
def msgBound (hLenOf : HashAlg → Nat) (key : RSAKey) : Padding → Nat
  | .oaep _ algorithm _ => key.bytes - 2 * hLenOf algorithm - 2
  | _ => key.bytes - 11

/-- Concrete RSA key for the witnesses: modulus `6597069766657 *
7881299347898369` (the primes `3 * 2^41 + 1` and `7 * 2^50 + 1`), public
exponent 65537, private exponent inverse to it modulo `lcm(p-1, q-1)`.
96-bit, 12-byte modulus. -/
def keyW : RSAKey := ⟨51993481649993859442180882433, 65537, 22236527455043585⟩

/-- A 512-bit key (64 bytes) used by the eager-validation counterexample;
the exponents are irrelevant there. -/
def key512 : RSAKey := ⟨2 ^ 511, 3, 5⟩

/-- Degenerate hash collaborator for the witnesses: a one-byte digest. -/
def hashW : HashAlg → List Nat → List Nat := fun _ _ => [7]

/-- Digest size of `hashW`. -/
def hLenW : HashAlg → Nat := fun _ => 1

theorem modPowAux_eq (m : Nat) :
    ∀ fuel b e, e ≤ fuel → modPowAux m fuel b e = b ^ e % m := by
  intro fuel
  induction fuel with
  | zero =>
    intro b e he
    have h0 : e = 0 := Nat.le_zero.mp he
    subst h0
    rfl
  | succ fuel ih =>
    intro b e he
    match e with
    | 0 => rfl
    | e + 1 =>
      have hr := ih (b * b % m) ((e + 1) / 2) (by omega)
      simp only [modPowAux, hr]
      rw [← Nat.pow_mod, ← pow_two, ← pow_mul]
      by_cases hodd : (e + 1) % 2 = 1
      · have h2 : 2 * ((e + 1) / 2) = e := by omega
        rw [if_pos hodd, h2, pow_succ, Nat.mul_mod, Nat.mod_mod, ← Nat.mul_mod,
          Nat.mul_comm]
      · have h2 : 2 * ((e + 1) / 2) = e + 1 := by omega
        rw [if_neg hodd, h2, Nat.mod_mod]

theorem modPow_eq (m b e : Nat) : modPow m b e = b ^ e % m :=
  modPowAux_eq m e b e (Nat.le_refl e)

/-! Byte-array / integer conversions. -/

theorem os2ipLE_lt : ∀ l : List Nat, (∀ b ∈ l, b < 256) →
    os2ipLE l < 256 ^ l.length := by
  intro l
  induction l with
  | nil => intro _; simp [os2ipLE]
  | cons b r ih =>
    intro h
    have hb : b < 256 := h b (List.mem_cons_self b r)
    have hr := ih (fun x hx => h x (List.mem_cons_of_mem _ hx))
    simp only [os2ipLE, List.length_cons, pow_succ]
    omega

theorem i2ospLE_length : ∀ k x, (i2ospLE k x).length = k := by
  intro k
  induction k with
  | zero => intro x; rfl
  | succ k ih => intro x; simp [i2ospLE, ih]

theorem i2ospLE_lt : ∀ k x, ∀ b ∈ i2ospLE k x, b < 256 := by
  intro k
  induction k with
  | zero => intro x b hb; simp [i2ospLE] at hb
  | succ k ih =>
    intro x b hb
    simp only [i2ospLE, List.mem_cons] at hb
    rcases hb with hb | hb
    · subst hb; exact Nat.mod_lt _ (by omega)
    · exact ih _ b hb

theorem i2ospLE_os2ipLE : ∀ l : List Nat, (∀ b ∈ l, b < 256) →
    i2ospLE l.length (os2ipLE l) = l := by
  intro l
  induction l with
  | nil => intro _; rfl
  | cons b r ih =>
    intro h
    have hb : b < 256 := h b (List.mem_cons_self b r)
    have h1 : (b + 256 * os2ipLE r) % 256 = b := by omega
    have h2 : (b + 256 * os2ipLE r) / 256 = os2ipLE r := by omega
    simp only [os2ipLE, List.length_cons, i2ospLE, h1, h2]
    rw [ih (fun x hx => h x (List.mem_cons_of_mem _ hx))]

theorem os2ipLE_i2ospLE : ∀ k x, os2ipLE (i2ospLE k x) = x % 256 ^ k := by
  intro k
  induction k with
  | zero => intro x; simp [i2ospLE, os2ipLE, Nat.mod_one]
  | succ k ih =>
    intro x
    simp only [i2ospLE, os2ipLE, ih]
    rw [pow_succ, Nat.mul_comm (256 ^ k) 256, Nat.mod_mul]

theorem os2ipLE_append_zero : ∀ l : List Nat, os2ipLE (l ++ [0]) = os2ipLE l := by
  intro l
  induction l with
  | nil => rfl
  | cons b r ih => simp [os2ipLE, ih]

theorem i2osp_length (k x : Nat) : (i2osp k x).length = k := by
  simp [i2osp, i2ospLE_length]

theorem i2osp_lt (k x : Nat) : ∀ b ∈ i2osp k x, b < 256 := by
  intro b hb
  exact i2ospLE_lt k x b (List.mem_reverse.mp hb)

theorem i2osp_os2ip (l : List Nat) (h : ∀ b ∈ l, b < 256) :
    i2osp l.length (os2ip l) = l := by
  have := i2ospLE_os2ipLE l.reverse (fun b hb => h b (List.mem_reverse.mp hb))
  rw [List.length_reverse] at this
  simp [i2osp, os2ip, this]

theorem os2ip_i2osp (k x : Nat) (h : x < 256 ^ k) : os2ip (i2osp k x) = x := by
  simp only [os2ip, i2osp, List.reverse_reverse, os2ipLE_i2ospLE]
  exact Nat.mod_eq_of_lt h

theorem os2ip_lt (l : List Nat) (h : ∀ b ∈ l, b < 256) :
    os2ip l < 256 ^ l.length := by
  have := os2ipLE_lt l.reverse (fun b hb => h b (List.mem_reverse.mp hb))
  rwa [List.length_reverse] at this

theorem os2ip_cons_zero (l : List Nat) : os2ip (0 :: l) = os2ip l := by
  simp only [os2ip, List.reverse_cons, os2ipLE_append_zero]

/-! Bit-length bounds. -/

theorem bitLenAux_bounds : ∀ fuel n, n ≤ fuel →
    n < 2 ^ bitLenAux fuel n ∧ (1 ≤ n → 2 ^ bitLenAux fuel n ≤ 2 * n) := by
  intro fuel
  induction fuel with
  | zero =>
    intro n hn
    have h0 : n = 0 := Nat.le_zero.mp hn
    subst h0
    simp [bitLenAux]
  | succ fuel ih =>
    intro n hn
    by_cases h0 : n = 0
    · subst h0; simp [bitLenAux]
    · obtain ⟨hr1, hr2⟩ := ih (n / 2) (by omega)
      simp only [bitLenAux, if_neg h0, pow_succ]
      constructor
      · omega
      · intro _
        by_cases h1 : n / 2 = 0
        · have hb : bitLenAux fuel 0 = 0 := by cases fuel <;> rfl
          rw [h1, hb, pow_zero]
          omega
        · have := hr2 (by omega)
          omega

theorem lt_two_pow_bitLength (n : Nat) : n < 2 ^ bitLength n :=
  (bitLenAux_bounds n n (Nat.le_refl n)).1

theorem two_pow_bitLength_le (n : Nat) (h : 1 ≤ n) : 2 ^ bitLength n ≤ 2 * n :=
  (bitLenAux_bounds n n (Nat.le_refl n)).2 h

theorem bitLength_pos (n : Nat) (h : 1 ≤ n) : 1 ≤ bitLength n := by
  by_contra hc
  have h0 : bitLength n = 0 := by omega
  have := lt_two_pow_bitLength n
  rw [h0] at this
  omega

/-! Size bounds for RSA keys: with `k = key.bytes`,
`256 ^ (k - 1) ≤ n < 256 ^ k` once the modulus is non-trivial. -/

theorem rsaKey_lt_pow (key : RSAKey) : key.n < 256 ^ key.bytes := by
  have hb := lt_two_pow_bitLength key.n
  have hk : bitLength key.n ≤ 8 * key.bytes := by
    simp only [RSAKey.bytes]
    omega
  calc key.n < 2 ^ bitLength key.n := hb
    _ ≤ 2 ^ (8 * key.bytes) := Nat.pow_le_pow_right (by omega) hk
    _ = 256 ^ key.bytes := by
        rw [pow_mul]
        norm_num

theorem rsaKey_pow_le (key : RSAKey) (h : 2 ≤ key.n) :
    256 ^ (key.bytes - 1) ≤ key.n := by
  have hb := two_pow_bitLength_le key.n (by omega)
  have hpos := bitLength_pos key.n (by omega)
  have hk : 8 * (key.bytes - 1) ≤ bitLength key.n - 1 := by
    simp only [RSAKey.bytes]
    omega
  have h1 : 256 ^ (key.bytes - 1) = 2 ^ (8 * (key.bytes - 1)) := by
    rw [pow_mul]
    norm_num
  have h2 : 2 ^ (8 * (key.bytes - 1)) ≤ 2 ^ (bitLength key.n - 1) :=
    Nat.pow_le_pow_right (by omega) hk
  have h3 : 2 * 2 ^ (bitLength key.n - 1) = 2 ^ bitLength key.n := by
    rw [← pow_succ']
    congr 1
    omega
  omega

theorem rsaKey_bytes_pos (key : RSAKey) (h : 2 ≤ key.n) : 1 ≤ key.bytes := by
  have := bitLength_pos key.n (by omega)
  simp only [RSAKey.bytes]
  omega

/-! Roundtrip of the RSA primitive adapter on blocks with a leading zero
byte. -/

theorem rsaOps_roundtrip (key : RSAKey) (h2 : 2 ≤ key.n) (hinv : rsaInverts key)
    (rest : List Nat) (hlen : rest.length = key.bytes - 1)
    (hbytes : ∀ b ∈ (0 :: rest : List Nat), b < 256) :
    rsaPublicOp key (0 :: rest) =
      .ok (i2osp key.bytes (modPow key.n (os2ip (0 :: rest)) key.e)) ∧
    rsaPrivateOp key (i2osp key.bytes (modPow key.n (os2ip (0 :: rest)) key.e)) =
      .ok (0 :: rest) := by
  have hbpos := rsaKey_bytes_pos key h2
  have hv : os2ip (0 :: rest) < key.n := by
    rw [os2ip_cons_zero]
    have h1 : os2ip rest < 256 ^ rest.length :=
      os2ip_lt rest (fun b hb => hbytes b (List.mem_cons_of_mem _ hb))
    rw [hlen] at h1
    exact Nat.lt_of_lt_of_le h1 (rsaKey_pow_le key h2)
  have hnpos : 0 < key.n := by omega
  have hw : modPow key.n (os2ip (0 :: rest)) key.e < key.n := by
    rw [modPow_eq]
    exact Nat.mod_lt _ hnpos
  constructor
  · simp only [rsaPublicOp, if_pos hv]
  · have hwos : os2ip (i2osp key.bytes (modPow key.n (os2ip (0 :: rest)) key.e)) =
        modPow key.n (os2ip (0 :: rest)) key.e := by
      apply os2ip_i2osp
      exact Nat.lt_of_lt_of_le hw (Nat.le_of_lt (rsaKey_lt_pow key))
    simp only [rsaPrivateOp, hwos, if_pos hw]
    have hback : modPow key.n (modPow key.n (os2ip (0 :: rest)) key.e) key.d =
        os2ip (0 :: rest) := by
      rw [modPow_eq, modPow_eq, ← Nat.pow_mod, ← pow_mul]
      exact hinv _ hv
    rw [hback]
    have hblock : (0 :: rest : List Nat).length = key.bytes := by
      simp only [List.length_cons]
      omega
    rw [← hblock, i2osp_os2ip _ hbytes]

/-! Pointwise xor on byte lists. -/

theorem xorBytes_length (a b : List Nat) :
    (xorBytes a b).length = min a.length b.length := by
  simp [xorBytes]

theorem xorBytes_cancel : ∀ a b : List Nat, a.length = b.length →
    xorBytes (xorBytes a b) b = a := by
  intro a
  induction a with
  | nil => intro b _; rfl
  | cons x a ih =>
    intro b h
    cases b with
    | nil => simp at h
    | cons y b =>
      simp only [xorBytes, List.zipWith_cons_cons] at *
      rw [Nat.xor_cancel_right]
      rw [ih b (by simpa using h)]

theorem xorBytes_lt : ∀ a b : List Nat, (∀ x ∈ a, x < 256) →
    (∀ x ∈ b, x < 256) → ∀ z ∈ xorBytes a b, z < 256 := by
  intro a
  induction a with
  | nil => intro b _ _ z hz; simp [xorBytes] at hz
  | cons x a ih =>
    intro b ha hb z hz
    cases b with
    | nil => simp [xorBytes] at hz
    | cons y b =>
      simp only [xorBytes, List.zipWith_cons_cons, List.mem_cons] at hz
      rcases hz with hz | hz
      · subst hz
        have hx : x < 2 ^ 8 := by
          have := ha x (List.mem_cons_self x a)
          omega
        have hy : y < 2 ^ 8 := by
          have := hb y (List.mem_cons_self y b)
          omega
        have := Nat.xor_lt_two_pow hx hy
        omega
      · exact ih b (fun t ht => ha t (List.mem_cons_of_mem _ ht))
          (fun t ht => hb t (List.mem_cons_of_mem _ ht)) z hz

/-! MGF1 output length and byte bounds. -/

theorem sum_map_length_const (hLen : Nat) :
    ∀ L : List (List Nat), (∀ s ∈ L, s.length = hLen) →
    (L.map List.length).sum = L.length * hLen := by
  intro L
  induction L with
  | nil => intro _; simp
  | cons s L ih =>
    intro h
    simp only [List.map_cons, List.sum_cons, List.length_cons,
      ih (fun t ht => h t (List.mem_cons_of_mem _ ht)),
      h s (List.mem_cons_self s L)]
    ring

theorem mgf1_length (hash : List Nat → List Nat) (hLen : Nat)
    (hhash : ∀ s, (hash s).length = hLen) (hpos : 0 < hLen)
    (seed : List Nat) (maskLen : Nat) :
    (mgf1 hash hLen seed maskLen).length = maskLen := by
  simp only [mgf1, List.length_take, List.length_flatten]
  rw [sum_map_length_const hLen _ ?_]
  · rw [List.length_map, List.length_range]
    have hd := Nat.div_add_mod (maskLen + hLen - 1) hLen
    have hm : (maskLen + hLen - 1) % hLen < hLen := Nat.mod_lt _ hpos
    have hc : (maskLen + hLen - 1) / hLen * hLen =
        hLen * ((maskLen + hLen - 1) / hLen) := Nat.mul_comm _ _
    omega
  · intro s hs
    obtain ⟨c, _, rfl⟩ := List.mem_map.mp hs
    exact hhash _

theorem mgf1_lt (hash : List Nat → List Nat) (hLen : Nat)
    (hhash : ∀ s, ∀ b ∈ hash s, b < 256) (seed : List Nat) (maskLen : Nat) :
    ∀ b ∈ mgf1 hash hLen seed maskLen, b < 256 := by
  intro b hb
  have hb' := List.mem_of_mem_take hb
  obtain ⟨s, hs, hbs⟩ := List.mem_flatten.mp hb'
  obtain ⟨c, _, rfl⟩ := List.mem_map.mp hs
  exact hhash _ b hbs

/-! Scanning lemmas for the unpadding codecs. -/

theorem dropTillZero_spec : ∀ ps m : List Nat, (∀ b ∈ ps, 0 < b) →
    dropTillZero (ps ++ 0 :: m) = .ok m := by
  intro ps
  induction ps with
  | nil => intro m _; rfl
  | cons b ps ih =>
    intro m h
    have hb : 0 < b := h b (List.mem_cons_self b ps)
    cases b with
    | zero => omega
    | succ b' =>
      simp only [List.cons_append, dropTillZero]
      exact ih m (fun t ht => h t (List.mem_cons_of_mem _ ht))

theorem oaepScan_spec : ∀ z : Nat, ∀ m : List Nat,
    oaepScan (List.replicate z 0 ++ 1 :: m) = .ok m := by
  intro z
  induction z with
  | zero => intro m; rfl
  | succ z ih =>
    intro m
    simp only [List.replicate_succ, List.cons_append, oaepScan]
    exact ih m

/-! Roundtrip of the PKCS#1 v1.5 encryption codec. -/

theorem pkcs1_enc_dec (key : RSAKey) (h2 : 2 ≤ key.n) (hinv : rsaInverts key)
    (ps m c : List Nat) (hps : ∀ b ∈ ps, 0 < b ∧ b < 256)
    (hm : ∀ b ∈ m, b < 256) (hlen : ps.length + m.length + 3 = key.bytes)
    (henc : pkcs1Encrypt key ps m = .ok c) :
    c.length = key.bytes ∧ pkcs1Decrypt key c = .ok m := by
  by_cases hb : key.bytes < m.length + 11
  · simp [pkcs1Encrypt, if_pos hb] at henc
  · simp only [pkcs1Encrypt, if_neg hb] at henc
    have hrest : (2 :: (ps ++ 0 :: m) : List Nat).length = key.bytes - 1 := by
      simp only [List.length_cons, List.length_append]
      omega
    have hbytes : ∀ b ∈ (0 :: 2 :: (ps ++ 0 :: m) : List Nat), b < 256 := by
      refine List.forall_mem_cons.mpr ⟨by omega, ?_⟩
      refine List.forall_mem_cons.mpr ⟨by omega, ?_⟩
      refine List.forall_mem_append.mpr ⟨fun b hb' => (hps b hb').2, ?_⟩
      exact List.forall_mem_cons.mpr ⟨by omega, hm⟩
    have hops := rsaOps_roundtrip key h2 hinv (2 :: (ps ++ 0 :: m)) hrest hbytes
    have hpad : pkcs1v15EncPad ps m = 0 :: 2 :: (ps ++ 0 :: m) := rfl
    rw [hpad, hops.1] at henc
    have hc : i2osp key.bytes
        (modPow key.n (os2ip (0 :: 2 :: (ps ++ 0 :: m))) key.e) = c := by
      simpa using henc
    constructor
    · rw [← hc]
      exact i2osp_length _ _
    · rw [← hc]
      simp only [pkcs1Decrypt, hops.2]
      simp only [pkcs1v15EncUnpad]
      exact dropTillZero_spec ps m (fun b hb' => (hps b hb').1)

/-! Roundtrip of the OAEP codec. -/

theorem oaep_enc_dec (hash mgfHash : List Nat → List Nat) (hLen mgfHLen : Nat)
    (key : RSAKey) (h2 : 2 ≤ key.n) (hinv : rsaInverts key)
    (label seed m c : List Nat)
    (hhashLen : ∀ s, (hash s).length = hLen)
    (hhashLt : ∀ s, ∀ b ∈ hash s, b < 256)
    (hmgfLen : ∀ s, (mgfHash s).length = mgfHLen)
    (hmgfLt : ∀ s, ∀ b ∈ mgfHash s, b < 256)
    (hmgfPos : 0 < mgfHLen)
    (hseedLen : seed.length = hLen) (hseedLt : ∀ b ∈ seed, b < 256)
    (hm : ∀ b ∈ m, b < 256)
    (henc : oaepEncrypt hash mgfHash hLen mgfHLen key label seed m = .ok c) :
    c.length = key.bytes ∧
      oaepDecrypt hash mgfHash hLen mgfHLen key label c = .ok m := by
  by_cases hcheck : key.bytes < m.length + 2 * hLen + 2
  · simp [oaepEncrypt, oaepEncode, if_pos hcheck] at henc
  · have hk : m.length + 2 * hLen + 2 ≤ key.bytes := by omega
    set k := key.bytes with hkdef
    set db := oaepDB hash hLen k label m with hdb
    have hdbLen : db.length = k - hLen - 1 := by
      rw [hdb, oaepDB]
      simp only [List.length_append, List.length_cons, List.length_replicate,
        hhashLen label]
      omega
    have hdbLt : ∀ b ∈ db, b < 256 := by
      rw [hdb, oaepDB]
      refine List.forall_mem_append.mpr ⟨?_, ?_⟩
      · refine List.forall_mem_append.mpr ⟨hhashLt label, ?_⟩
        intro b hb'
        rw [List.eq_of_mem_replicate hb']
        omega
      · exact List.forall_mem_cons.mpr ⟨by omega, hm⟩
    set mask1 := mgf1 mgfHash mgfHLen seed db.length with hmask1
    have hmask1Len : mask1.length = db.length :=
      mgf1_length mgfHash mgfHLen hmgfLen hmgfPos seed db.length
    set maskedDB := xorBytes db mask1 with hmaskedDB
    have hmaskedDBLen : maskedDB.length = db.length := by
      rw [hmaskedDB, xorBytes_length, hmask1Len]
      omega
    have hmaskedDBLt : ∀ b ∈ maskedDB, b < 256 :=
      xorBytes_lt db mask1 hdbLt (mgf1_lt mgfHash mgfHLen hmgfLt seed db.length)
    set mask2 := mgf1 mgfHash mgfHLen maskedDB hLen with hmask2
    have hmask2Len : mask2.length = hLen :=
      mgf1_length mgfHash mgfHLen hmgfLen hmgfPos maskedDB hLen
    set maskedSeed := xorBytes seed mask2 with hmaskedSeed
    have hmaskedSeedLen : maskedSeed.length = hLen := by
      rw [hmaskedSeed, xorBytes_length, hmask2Len, hseedLen]
      omega
    have hmaskedSeedLt : ∀ b ∈ maskedSeed, b < 256 :=
      xorBytes_lt seed mask2 hseedLt (mgf1_lt mgfHash mgfHLen hmgfLt maskedDB hLen)
    have hblockEq : oaepBlock hash mgfHash hLen mgfHLen k label seed m =
        0 :: (maskedSeed ++ maskedDB) := by
      rw [hmaskedSeed, hmask2, hmaskedDB, hmask1, hdb]
      rfl
    have hrestLen : (maskedSeed ++ maskedDB).length = k - 1 := by
      simp only [List.length_append, hmaskedSeedLen, hmaskedDBLen, hdbLen]
      omega
    have hblockLt : ∀ b ∈ (0 :: (maskedSeed ++ maskedDB) : List Nat), b < 256 := by
      refine List.forall_mem_cons.mpr ⟨by omega, ?_⟩
      exact List.forall_mem_append.mpr ⟨hmaskedSeedLt, hmaskedDBLt⟩
    have hops := rsaOps_roundtrip key h2 hinv (maskedSeed ++ maskedDB)
      hrestLen hblockLt
    simp only [oaepEncrypt, oaepEncode, if_neg hcheck, hblockEq, hops.1] at henc
    have hc : i2osp k
        (modPow key.n (os2ip (0 :: (maskedSeed ++ maskedDB))) key.e) = c := by
      simpa using henc
    constructor
    · rw [← hc]
      exact i2osp_length _ _
    · rw [← hc]
      simp only [oaepDecrypt, hops.2, oaepDecode]
      have h1 : (maskedSeed ++ maskedDB).take hLen = maskedSeed := by
        rw [← hmaskedSeedLen]
        exact List.take_left maskedSeed maskedDB
      have h2 : (maskedSeed ++ maskedDB).drop hLen = maskedDB := by
        rw [← hmaskedSeedLen]
        exact List.drop_left maskedSeed maskedDB
      rw [h1, h2]
      have h3 : xorBytes maskedSeed (mgf1 mgfHash mgfHLen maskedDB hLen) = seed := by
        rw [hmaskedSeed, ← hmask2]
        exact xorBytes_cancel seed mask2 (by rw [hmask2Len, hseedLen])
      rw [h3]
      have h4 : xorBytes maskedDB (mgf1 mgfHash mgfHLen seed maskedDB.length) = db := by
        rw [hmaskedDBLen, hmaskedDB, ← hmask1]
        exact xorBytes_cancel db mask1 (by rw [hmask1Len])
      rw [h4]
      have h5 : db.take hLen = hash label := by
        rw [hdb, oaepDB, ← hhashLen label, List.append_assoc]
        exact List.take_left _ _
      have h6 : db.drop hLen =
          List.replicate (k - m.length - 2 * hLen - 2) 0 ++ 1 :: m := by
        rw [hdb, oaepDB, ← hhashLen label, List.append_assoc]
        exact List.drop_left _ _
      rw [h5, if_pos rfl, h6]
      exact oaepScan_spec _ m

/-! Number-theoretic facts needed to certify the witness key: Fermat's
little theorem lifted to `x ^ ((p-1)*t + 1) ≡ x`, combined over the two
prime factors, and kernel-checkable Lucas primality certificates. -/

theorem pow_modEq_self_prime (p t x : Nat) (hp : p.Prime) :
    x ^ ((p - 1) * t + 1) ≡ x [MOD p] := by
  haveI : Fact p.Prime := ⟨hp⟩
  have hz : ((x : ZMod p)) ^ ((p - 1) * t + 1) = (x : ZMod p) := by
    by_cases h0 : (x : ZMod p) = 0
    · rw [h0, zero_pow (Nat.succ_ne_zero _)]
    · rw [pow_succ, pow_mul, ZMod.pow_card_sub_one_eq_one h0, one_pow, one_mul]
  have h2 : ((x ^ ((p - 1) * t + 1) : Nat) : ZMod p) = ((x : Nat) : ZMod p) := by
    push_cast
    exact hz
  exact (ZMod.natCast_eq_natCast_iff _ _ _).mp h2

theorem rsaInverts_of_primes (p q e d : Nat) (hp : p.Prime) (hq : q.Prime)
    (hne : p ≠ q) (hdp : e * d % (p - 1) = 1) (hdq : e * d % (q - 1) = 1) :
    ∀ x < p * q, x ^ (e * d) % (p * q) = x := by
  intro x hx
  have hed_p : e * d = (p - 1) * (e * d / (p - 1)) + 1 := by
    conv_lhs => rw [← Nat.div_add_mod (e * d) (p - 1)]
    rw [hdp]
  have hed_q : e * d = (q - 1) * (e * d / (q - 1)) + 1 := by
    conv_lhs => rw [← Nat.div_add_mod (e * d) (q - 1)]
    rw [hdq]
  have h1 : x ^ (e * d) ≡ x [MOD p] := by
    rw [hed_p]
    exact pow_modEq_self_prime p _ x hp
  have h2 : x ^ (e * d) ≡ x [MOD q] := by
    rw [hed_q]
    exact pow_modEq_self_prime q _ x hq
  have hco : Nat.Coprime p q := (Nat.coprime_primes hp hq).mpr hne
  have h3 : x ^ (e * d) ≡ x [MOD p * q] :=
    (Nat.modEq_and_modEq_iff_modEq_mul hco).mp ⟨h1, h2⟩
  have h4 : x ^ (e * d) % (p * q) = x % (p * q) := h3
  rwa [Nat.mod_eq_of_lt hx] at h4

theorem zmod_pow_natCast (p g k : Nat) :
    ((g : ZMod p)) ^ k = ((modPow p g k : Nat) : ZMod p) := by
  rw [modPow_eq, ZMod.natCast_mod, Nat.cast_pow]

theorem zmod_natCast_ne_one (p v : Nat) (h : ¬ v % p = 1 % p) :
    ((v : Nat) : ZMod p) ≠ 1 := by
  intro hv
  have h1 : ((v : Nat) : ZMod p) = ((1 : Nat) : ZMod p) := by
    rw [Nat.cast_one]
    exact hv
  exact h ((ZMod.natCast_eq_natCast_iff' _ _ _).mp h1)

theorem pW_prime : Nat.Prime 6597069766657 := by
  have hsub : (6597069766657 - 1 : Nat) = 6597069766656 := by norm_num
  refine lucas_primality 6597069766657 ((5 : Nat) : ZMod 6597069766657) ?_ ?_
  · rw [hsub, zmod_pow_natCast]
    have h : modPow 6597069766657 5 6597069766656 = 1 := rfl
    rw [h, Nat.cast_one]
  · intro r hr hdvd
    rw [hsub] at hdvd
    have hfac : (6597069766656 : Nat) = 2 ^ 41 * 3 := by norm_num
    rw [hfac] at hdvd
    have hr23 : r = 2 ∨ r = 3 := by
      rcases (Nat.Prime.dvd_mul hr).mp hdvd with h2 | h3
      · exact Or.inl ((Nat.prime_dvd_prime_iff_eq hr Nat.prime_two).mp
          (hr.dvd_of_dvd_pow h2))
      · exact Or.inr ((Nat.prime_dvd_prime_iff_eq hr Nat.prime_three).mp h3)
    rcases hr23 with rfl | rfl
    · rw [hsub]
      have hdiv : (6597069766656 : Nat) / 2 = 3298534883328 := by norm_num
      rw [hdiv, zmod_pow_natCast]
      have h : modPow 6597069766657 5 3298534883328 = 6597069766656 := rfl
      rw [h]
      exact zmod_natCast_ne_one _ _ (by norm_num)
    · rw [hsub]
      have hdiv : (6597069766656 : Nat) / 3 = 2199023255552 := by norm_num
      rw [hdiv, zmod_pow_natCast]
      have h : modPow 6597069766657 5 2199023255552 = 2000779854491 := rfl
      rw [h]
      exact zmod_natCast_ne_one _ _ (by norm_num)

theorem qW_prime : Nat.Prime 7881299347898369 := by
  have hsub : (7881299347898369 - 1 : Nat) = 7881299347898368 := by norm_num
  refine lucas_primality 7881299347898369 ((6 : Nat) : ZMod 7881299347898369) ?_ ?_
  · rw [hsub, zmod_pow_natCast]
    have h : modPow 7881299347898369 6 7881299347898368 = 1 := rfl
    rw [h, Nat.cast_one]
  · intro r hr hdvd
    rw [hsub] at hdvd
    have hfac : (7881299347898368 : Nat) = 2 ^ 50 * 7 := by norm_num
    rw [hfac] at hdvd
    have hr27 : r = 2 ∨ r = 7 := by
      rcases (Nat.Prime.dvd_mul hr).mp hdvd with h2 | h7
      · exact Or.inl ((Nat.prime_dvd_prime_iff_eq hr Nat.prime_two).mp
          (hr.dvd_of_dvd_pow h2))
      · exact Or.inr ((Nat.prime_dvd_prime_iff_eq hr (by norm_num)).mp h7)
    rcases hr27 with rfl | rfl
    · rw [hsub]
      have hdiv : (7881299347898368 : Nat) / 2 = 3940649673949184 := by norm_num
      rw [hdiv, zmod_pow_natCast]
      have h : modPow 7881299347898369 6 3940649673949184 = 7881299347898368 := rfl
      rw [h]
      exact zmod_natCast_ne_one _ _ (by norm_num)
    · rw [hsub]
      have hdiv : (7881299347898368 : Nat) / 7 = 1125899906842624 := by norm_num
      rw [hdiv, zmod_pow_natCast]
      have h : modPow 7881299347898369 6 1125899906842624 = 296251403418829 := rfl
      rw [h]
      exact zmod_natCast_ne_one _ _ (by norm_num)

theorem keyW_inverts : rsaInverts keyW := by
  intro x hx
  have hn : keyW.n = 6597069766657 * 7881299347898369 := by norm_num [keyW]
  have hed : (keyW.e * keyW.d : Nat) = 65537 * 22236527455043585 := rfl
  rw [hn] at hx ⊢
  rw [hed]
  exact rsaInverts_of_primes 6597069766657 7881299347898369 65537 22236527455043585
    pW_prime qW_prime (by norm_num) (by norm_num) (by norm_num) x hx

/-! Linearity of the contexts: a finalized hash context rejects both
operations, and both context types propagate this. -/

theorem hashCtx_finalized_rejects (h : HashCtx) (fn : List Nat → List Nat)
    (d : List Nat) (hfin : h.finalized = true) :
    h.updateCtx d = .error .alreadyFinalized ∧
    h.finalizeCtx fn = .error .alreadyFinalized := by
  constructor <;> simp [HashCtx.updateCtx, HashCtx.finalizeCtx, hfin]

/-- Claim C1: every decryption whose padding validation fails — whichever
recognised decoding reason OpenSSL reports (wrong block type 01 or 02,
generic PKCS decoding error) — is surfaced as the one undifferentiated
decryption-failed outcome, and every failed verification (`res == 0`,
whatever the consumed error queue holds) as the one undifferentiated
`InvalidSignature`; no two internal causes are distinguishable from the
returned error. -/
theorem claim1_undifferentiated_failures :
    (∀ hasPkcs : Bool, ∀ reason ∈ decodingErrorsList hasPkcs,
      ∀ rest : List OpenSSLReason,
      encDecRsaPkeyCtxOutcome false hasPkcs (.error (reason :: rest)) =
        .error .decryptionFailed) ∧
    (∀ errors : List OpenSSLReason, errors ≠ [] →
      verifyPkeyCtxOutcome 0 errors = .error .invalidSignature) := by
  constructor
  · intro hasPkcs reason hreason rest
    cases hasPkcs <;> cases reason <;>
      simp_all [decodingErrorsList, encDecRsaPkeyCtxOutcome,
        handleRsaEncDecError]
  · intro errors hne
    match errors with
    | [] => exact absurd rfl hne
    | r :: rest => rfl

/-- Witness for C1: the PKCS decoding reason yields `DecryptionFailed` and a
failed verification with a non-empty queue yields `InvalidSignature`. -/
theorem claim1_witness :
    encDecRsaPkeyCtxOutcome false true (.error [.pkcsDecodingError]) =
      .error .decryptionFailed ∧
    verifyPkeyCtxOutcome 0 [.otherReason] = .error .invalidSignature :=
  ⟨claim1_undifferentiated_failures.1 true .pkcsDecodingError (by decide) [],
    claim1_undifferentiated_failures.2 [.otherReason] (by decide)⟩

/-- Claim C2 counterexample: a PKCS#1 v1.5 signature (and verification)
context over a 64-byte key with a 64-byte digest — so
`key_size_bytes - digest_size - 2 < 0` — is created successfully instead
of failing eagerly with `KeyTooSmall`; the source performs the eager check
only in the PSS branch. -/
theorem claim2_counterexample :
    key512.bytes = 64 ∧ HashAlg.digestSize .sha512 = 64 ∧
    (64 : Int) - 64 - 2 < 0 ∧
    sigContextInit (fun _ => true) true key512 .pkcs1v15 .sha512 =
      .ok ⟨key512, .pkcs1v15, .sha512, true, HashCtx.init⟩ ∧
    verContextInit (fun _ => true) true key512 [] .pkcs1v15 .sha512 =
      .ok ⟨key512, [], .pkcs1v15, .sha512, true, HashCtx.init⟩ := by
  refine ⟨by decide, rfl, by norm_num, rfl, rfl⟩

/-- Claim C2 (amended): the eager `KeyTooSmall` check at context creation
applies to the PSS scheme only: with MGF1, any key/digest pair with
`key_size_bytes - digest_size - 2 < 0` fails signature- and
verification-context creation with `KeyTooSmall` before any hashing work,
while PKCS#1 v1.5 context creation always succeeds (its digest-too-large
failure surfaces at finalize time instead). -/
theorem claim2_eager_key_size_check (sup : HashAlg → Bool) (hasPkeyCtx : Bool)
    (key : RSAKey) (mgfAlg algorithm : HashAlg) (sl : SaltPolicy)
    (signature : List Nat)
    (hsmall : key.bytes < algorithm.digestSize + 2) :
    sigContextInit sup hasPkeyCtx key (.pss (.mgf1 mgfAlg) sl) algorithm =
      .error .keyTooSmall ∧
    verContextInit sup hasPkeyCtx key signature (.pss (.mgf1 mgfAlg) sl)
      algorithm = .error .keyTooSmall ∧
    sigContextInit sup hasPkeyCtx key .pkcs1v15 algorithm =
      .ok ⟨key, .pkcs1v15, algorithm, hasPkeyCtx, HashCtx.init⟩ ∧
    verContextInit sup hasPkeyCtx key signature .pkcs1v15 algorithm =
      .ok ⟨key, signature, .pkcs1v15, algorithm, hasPkeyCtx, HashCtx.init⟩ := by
  refine ⟨?_, ?_, rfl, rfl⟩
  · simp [sigContextInit, if_pos hsmall]
  · simp [verContextInit, if_pos hsmall]

/-- Witness for C2 (amended) at a 64-byte key with SHA-512. -/
theorem claim2_witness :
    sigContextInit (fun _ => true) true key512 (.pss (.mgf1 .sha1) .maxLength)
      .sha512 = .error .keyTooSmall ∧
    verContextInit (fun _ => true) true key512 [] (.pss (.mgf1 .sha1) .maxLength)
      .sha512 = .error .keyTooSmall ∧
    sigContextInit (fun _ => true) true key512 .pkcs1v15 .sha512 =
      .ok ⟨key512, .pkcs1v15, .sha512, true, HashCtx.init⟩ ∧
    verContextInit (fun _ => true) true key512 [] .pkcs1v15 .sha512 =
      .ok ⟨key512, [], .pkcs1v15, .sha512, true, HashCtx.init⟩ := by
  have h := claim2_eager_key_size_check (fun _ => true) true key512 .sha1
    .sha512 .maxLength [] (by decide)
  exact ⟨h.1, h.2.1, h.2.2.1, h.2.2.2⟩

/-- Claim C4: under the MaxLength policy the resolved PSS salt length is
exactly `ceil((key_size_bits - 1)/8) - digest_size - 2` and non-negative;
for a 2048-bit key it is 222 bytes with SHA-256 and 234 with SHA-1. -/
theorem claim4_max_salt_length :
    (∀ keySize digestSize s : Nat,
      getRsaPssSaltLength .maxLength keySize digestSize = .ok s →
      (s : Int) = (pssEmLen keySize : Int) - digestSize - 2 ∧ 0 ≤ (s : Int)) ∧
    getRsaPssSaltLength .maxLength 2048 32 = .ok 222 ∧
    getRsaPssSaltLength .maxLength 2048 20 = .ok 234 := by
  refine ⟨?_, rfl, rfl⟩
  intro keySize digestSize s h
  simp only [getRsaPssSaltLength] at h
  split at h
  · simp at h
  · rename_i hcond
    have hs : ((pssEmLen keySize : Int) - digestSize - 2).toNat = s := by
      injection h
    rw [← hs, Int.toNat_of_nonneg (by omega)]
    exact ⟨rfl, by omega⟩

/-- Witness for C4 at the 2048-bit/SHA-256 instance. -/
theorem claim4_witness :
    (222 : Int) = (pssEmLen 2048 : Int) - 32 - 2 ∧ 0 ≤ (222 : Int) :=
  claim4_max_salt_length.1 2048 32 222 rfl

/-- Claim C5 counterexample: a fixed salt-length policy of 1000 bytes with a
2048-bit key and a 32-byte digest resolves to 1000, strictly above the
MaxLength maximum of 222 — the resolution does not bound fixed values. -/
theorem claim5_counterexample :
    getRsaPssSaltLength (.fixedLength 1000) 2048 32 = .ok 1000 ∧
    getRsaPssSaltLength .maxLength 2048 32 = .ok 222 ∧ 222 < 1000 :=
  ⟨rfl, rfl, by norm_num⟩

/-- Claim C5 (amended): fixed-policy salt-length resolution returns the
fixed count unchanged for every key size and digest size, without bounding
it by the MaxLength maximum; an oversized value is only rejected later
when the finalize-time padding operation fails. -/
theorem claim5_fixed_salt_unbounded (count keySize digestSize : Nat) :
    getRsaPssSaltLength (.fixedLength count) keySize digestSize = .ok count :=
  rfl

/-- Claim C7: every padding value other than the supported combinations
(PKCS#1 v1.5 / OAEP for encryption-decryption, PKCS#1 v1.5 / PSS for
signing-verification) fails with `UnsupportedPadding`. -/
theorem claim7_unsupported_padding :
    (∀ p : Padding, p.encDecSupported = false →
      encDecValidate p = .error .unsupportedPadding) ∧
    (∀ p : Padding, p.sigSupported = false →
      ∀ (sup : HashAlg → Bool) (hasPkeyCtx : Bool) (key : RSAKey)
        (algorithm : HashAlg) (signature : List Nat),
      sigContextInit sup hasPkeyCtx key p algorithm =
        .error .unsupportedPadding ∧
      verContextInit sup hasPkeyCtx key signature p algorithm =
        .error .unsupportedPadding) := by
  constructor
  · intro p hp
    cases p <;> simp_all [Padding.encDecSupported, encDecValidate]
  · intro p hp sup hasPkeyCtx key algorithm signature
    cases p <;> simp_all [Padding.sigSupported, sigContextInit, verContextInit]

/-- Witness for C7: PSS is rejected for encryption-decryption and OAEP for
signature contexts. -/
theorem claim7_witness :
    encDecValidate (.pss (.mgf1 .sha1) .maxLength) =
      .error .unsupportedPadding ∧
    sigContextInit (fun _ => true) true keyW (.oaep (.mgf1 .sha1) .sha1 none)
      .sha1 = .error .unsupportedPadding ∧
    verContextInit (fun _ => true) true keyW [] (.oaep (.mgf1 .sha1) .sha1 none)
      .sha1 = .error .unsupportedPadding :=
  ⟨claim7_unsupported_padding.1 (.pss (.mgf1 .sha1) .maxLength) rfl,
    (claim7_unsupported_padding.2 (.oaep (.mgf1 .sha1) .sha1 none) rfl
      (fun _ => true) true keyW .sha1 []).1,
    (claim7_unsupported_padding.2 (.oaep (.mgf1 .sha1) .sha1 none) rfl
      (fun _ => true) true keyW .sha1 []).2⟩

/-- Claim C8: an OAEP request that reaches the label check (its MGF is MGF1
with the supported SHA-1 inner hash) and carries a non-empty label fails
with the unsupported-feature error; an absent or empty label passes that
check (whatever happens in later checks, it is never the label error). -/
theorem claim8_oaep_label_unsupported :
    (∀ (algorithm : HashAlg) (l : List Nat), l ≠ [] →
      encDecValidate (.oaep (.mgf1 .sha1) algorithm (some l)) =
        .error .unsupportedFeature) ∧
    (∀ algorithm : HashAlg,
      encDecValidate (.oaep (.mgf1 .sha1) algorithm none) ≠
        .error .unsupportedFeature ∧
      encDecValidate (.oaep (.mgf1 .sha1) algorithm (some [])) ≠
        .error .unsupportedFeature) := by
  constructor
  · intro algorithm l hl
    simp [encDecValidate, hl]
  · intro algorithm
    cases algorithm <;> simp [encDecValidate]

/-- Witness for C8 at a one-byte label. -/
theorem claim8_witness :
    encDecValidate (.oaep (.mgf1 .sha1) .sha1 (some [1])) =
      .error .unsupportedFeature :=
  claim8_oaep_label_unsupported.1 .sha1 [1] (by decide)

/-- Claim C9 counterexample: an OAEP request whose MGF is MGF1 with the
supported SHA-1 inner hash but whose OAEP digest is SHA-256 fails with
`UnsupportedHash` (raised by the separate main-digest check), refuting
that neither error is raised whenever the MGF is MGF1 with a supported
inner hash. -/
theorem claim9_counterexample :
    encDecValidate (.oaep (.mgf1 .sha1) .sha256 none) =
      .error .unsupportedHash := rfl

/-- Claim C9 (amended): a non-MGF1 mask generation function fails with
`UnsupportedMGF` and an MGF1 whose inner hash the backend does not support
fails with `UnsupportedHash`, for OAEP requests and PSS contexts alike;
with MGF1 and a supported inner hash the MGF checks raise neither error —
but OAEP separately requires its main digest to be SHA-1 and fails with
`UnsupportedHash` otherwise. -/
theorem claim9_mgf_validation :
    (∀ (algorithm : HashAlg) (label : Option (List Nat)),
      encDecValidate (.oaep .otherMGF algorithm label) =
        .error .unsupportedMGF) ∧
    (∀ (sup : HashAlg → Bool) (hasPkeyCtx : Bool) (key : RSAKey)
      (sl : SaltPolicy) (algorithm : HashAlg) (signature : List Nat),
      sigContextInit sup hasPkeyCtx key (.pss .otherMGF sl) algorithm =
        .error .unsupportedMGF ∧
      verContextInit sup hasPkeyCtx key signature (.pss .otherMGF sl)
        algorithm = .error .unsupportedMGF) ∧
    (∀ (mgfAlg algorithm : HashAlg) (label : Option (List Nat)),
      mgfAlg ≠ .sha1 →
      encDecValidate (.oaep (.mgf1 mgfAlg) algorithm label) =
        .error .unsupportedHash) ∧
    (∀ (sup : HashAlg → Bool) (hasPkeyCtx : Bool) (key : RSAKey)
      (sl : SaltPolicy) (mgfAlg algorithm : HashAlg) (signature : List Nat),
      sup mgfAlg = false → ¬ key.bytes < algorithm.digestSize + 2 →
      sigContextInit sup hasPkeyCtx key (.pss (.mgf1 mgfAlg) sl) algorithm =
        .error .unsupportedHash ∧
      verContextInit sup hasPkeyCtx key signature (.pss (.mgf1 mgfAlg) sl)
        algorithm = .error .unsupportedHash) ∧
    (∀ (sup : HashAlg → Bool) (hasPkeyCtx : Bool) (key : RSAKey)
      (sl : SaltPolicy) (mgfAlg algorithm : HashAlg) (signature : List Nat),
      sup mgfAlg = true →
      sigContextInit sup hasPkeyCtx key (.pss (.mgf1 mgfAlg) sl) algorithm ≠
        .error .unsupportedMGF ∧
      sigContextInit sup hasPkeyCtx key (.pss (.mgf1 mgfAlg) sl) algorithm ≠
        .error .unsupportedHash ∧
      verContextInit sup hasPkeyCtx key signature (.pss (.mgf1 mgfAlg) sl)
        algorithm ≠ .error .unsupportedMGF ∧
      verContextInit sup hasPkeyCtx key signature (.pss (.mgf1 mgfAlg) sl)
        algorithm ≠ .error .unsupportedHash) ∧
    (∀ label : Option (List Nat),
      encDecValidate (.oaep (.mgf1 .sha1) .sha1 label) ≠
        .error .unsupportedMGF ∧
      encDecValidate (.oaep (.mgf1 .sha1) .sha1 label) ≠
        .error .unsupportedHash) ∧
    (∀ algorithm : HashAlg, algorithm ≠ .sha1 →
      encDecValidate (.oaep (.mgf1 .sha1) algorithm none) =
        .error .unsupportedHash) := by
  refine ⟨?_, ?_, ?_, ?_, ?_, ?_, ?_⟩
  · intro algorithm label
    rfl
  · intro sup hasPkeyCtx key sl algorithm signature
    exact ⟨rfl, rfl⟩
  · intro mgfAlg algorithm label hne
    simp [encDecValidate, hne]
  · intro sup hasPkeyCtx key sl mgfAlg algorithm signature hsup hbig
    constructor <;> simp [sigContextInit, verContextInit, if_neg hbig, hsup]
  · intro sup hasPkeyCtx key sl mgfAlg algorithm signature hsup
    by_cases hsmall : key.bytes < algorithm.digestSize + 2 <;>
      refine ⟨?_, ?_, ?_, ?_⟩ <;>
      simp [sigContextInit, verContextInit, hsmall, hsup]
  · intro label
    by_cases hl : label.getD [] = [] <;>
      constructor <;> simp [encDecValidate, hl]
  · intro algorithm hne
    simp [encDecValidate, hne]

/-- Witness for C9: an unsupported MGF1 inner hash in OAEP, and the PSS
context checks over a 64-byte key. -/
theorem claim9_witness :
    encDecValidate (.oaep (.mgf1 .sha256) .sha1 none) =
      .error .unsupportedHash ∧
    sigContextInit (fun _ => false) true key512 (.pss (.mgf1 .sha1) .maxLength)
      .sha1 = .error .unsupportedHash ∧
    verContextInit (fun _ => false) true key512 [] (.pss (.mgf1 .sha1) .maxLength)
      .sha1 = .error .unsupportedHash :=
  ⟨claim9_mgf_validation.2.2.1 .sha256 .sha1 none (by decide),
    (claim9_mgf_validation.2.2.2.1 (fun _ => false) true key512 .maxLength
      .sha1 .sha1 [] rfl (by decide)).1,
    (claim9_mgf_validation.2.2.2.1 (fun _ => false) true key512 .maxLength
      .sha1 .sha1 [] rfl (by decide)).2⟩

/-- Claim C10: a ciphertext whose length differs from the key size in bytes
is rejected immediately with the ciphertext-length `ValueError` — for
every padding value, supported or not, so before any padding validation
and before any RSA primitive call. -/
theorem claim10_ciphertext_length_check
    (hashFn : HashAlg → List Nat → List Nat) (hLenOf : HashAlg → Nat)
    (key : RSAKey) (ct : List Nat) (padding : Padding)
    (hlen : ct.length ≠ key.bytes) :
    rsaDecrypt hashFn hLenOf key ct padding =
      .error .ciphertextLengthInvalid := by
  simp only [rsaDecrypt]
  rw [if_pos (Ne.symm hlen)]

/-- Witness for C10: a 3-byte ciphertext under the 12-byte `keyW`, with an
unsupported padding value to exhibit that the length check fires first. -/
theorem claim10_witness :
    rsaDecrypt hashW hLenW keyW [1, 2, 3] .otherPadding =
      .error .ciphertextLengthInvalid :=
  claim10_ciphertext_length_check hashW hLenW keyW [1, 2, 3] .otherPadding
    (by decide)

/-- Claim C6: for every supported padding scheme (PKCS#1 v1.5 and OAEP) and
every message within the scheme's length bound, decrypting with the
private key the ciphertext produced by encrypting with the matching public
key and the same padding returns exactly the message.  `rand` is the
entropy the RNG collaborator supplies (PKCS#1 padding string / OAEP seed),
constrained by its contract `randOK`; the key satisfies the §3 consistency
invariant `rsaInverts`. -/
theorem claim6_encrypt_decrypt_roundtrip
    (hashFn : HashAlg → List Nat → List Nat) (hLenOf : HashAlg → Nat)
    (key : RSAKey) (padding : Padding) (m rand c : List Nat)
    (h2 : 2 ≤ key.n) (hinv : rsaInverts key)
    (hhashLen : ∀ a s, (hashFn a s).length = hLenOf a)
    (hhashLt : ∀ a s, ∀ b ∈ hashFn a s, b < 256)
    (hpos : ∀ a, 0 < hLenOf a)
    (hm : ∀ b ∈ m, b < 256)
    (hrand : randOK hLenOf key padding m rand)
    (hlen : m.length ≤ msgBound hLenOf key padding)
    (henc : rsaEncrypt hashFn hLenOf key rand m padding = .ok c) :
    rsaDecrypt hashFn hLenOf key c padding = .ok m := by
  cases padding with
  | pkcs1v15 =>
    simp only [rsaEncrypt, encDecValidate] at henc
    simp only [randOK] at hrand
    obtain ⟨hclen, hdec⟩ := pkcs1_enc_dec key h2 hinv rand m c
      (fun b hb => hrand.2 b hb) hm hrand.1 henc
    simp only [rsaDecrypt, encDecRsaDecrypt, encDecValidate]
    rw [if_neg (by omega)]
    exact hdec
  | oaep mgf algorithm label =>
    cases mgf with
    | otherMGF => simp [rsaEncrypt, encDecValidate] at henc
    | mgf1 mgfAlg =>
      cases hval : encDecValidate (.oaep (.mgf1 mgfAlg) algorithm label) with
      | error e =>
        simp only [rsaEncrypt, hval] at henc
        exact absurd henc (by simp)
      | ok u =>
        cases u
        simp only [rsaEncrypt, hval] at henc
        simp only [randOK] at hrand
        obtain ⟨hclen, hdec⟩ := oaep_enc_dec (hashFn algorithm) (hashFn mgfAlg)
          (hLenOf algorithm) (hLenOf mgfAlg) key h2 hinv (labelBytes label)
          rand m c (hhashLen algorithm) (hhashLt algorithm) (hhashLen mgfAlg)
          (hhashLt mgfAlg) (hpos mgfAlg) hrand.1 hrand.2 hm henc
        simp only [rsaDecrypt, encDecRsaDecrypt, hval]
        rw [if_neg (by omega)]
        exact hdec
  | pss mgf sl => simp [rsaEncrypt, encDecValidate] at henc
  | otherPadding => simp [rsaEncrypt, encDecValidate] at henc

/-- Witness for C6: a one-byte message, PKCS#1 v1.5, over `keyW`. -/
theorem claim6_witness :
    rsaEncrypt hashW hLenW keyW [9, 9, 9, 9, 9, 9, 9, 9] [42] .pkcs1v15 =
      .ok [136, 7, 41, 181, 239, 177, 6, 149, 95, 82, 148, 251] ∧
    rsaDecrypt hashW hLenW keyW
      [136, 7, 41, 181, 239, 177, 6, 149, 95, 82, 148, 251] .pkcs1v15 =
      .ok [42] :=
  ⟨rfl, claim6_encrypt_decrypt_roundtrip hashW hLenW keyW .pkcs1v15 [42]
    [9, 9, 9, 9, 9, 9, 9, 9] [136, 7, 41, 181, 239, 177, 6, 149, 95, 82, 148, 251]
    (by decide) keyW_inverts (fun _ _ => rfl)
    (by intro a s b hb; simp [hashW] at hb; omega)
    (fun _ => Nat.one_pos) (by decide) ⟨by decide, by decide⟩ (by decide) rfl⟩
